import Mathlib

/-!
Verification of the chunk-dispatch/collect/stitch/cleanup pipeline of
src/client/piper_api_gui.py (class ChunkProcessorWorker and the
start_synthesis validation of PiperAPIGUIWindow) and of the /synthesize
endpoint of src/server/piper_api.py.

Text is embedded as List Char; the shared filesystem of temporary WAV
artifacts as an association list from paths to file data; the concurrent
run of ChunkProcessorWorker.run as a sequential drain over an arbitrary
interleaving of completion and stop events.
-/

namespace PiperTTS

abbrev Str := List Char

/-- Log severity constant INFO (piper_api_gui.py line 22). -/
def sevInfo : Nat := 0

/-- Log severity constant WARNING (piper_api_gui.py line 23). -/
def sevWarning : Nat := 1

/-- Log severity constant ERROR (piper_api_gui.py line 24). -/
def sevError : Nat := 2

/-- Log severity constant CRITICAL (piper_api_gui.py line 25). -/
def sevCritical : Nat := 3

/-! ### TextChunker (ChunkProcessorWorker.__init__, lines 48-55) -/

/-- One character of the replace('\n', ' ') pass. -/
def replNl (c : Char) : Char := if c = '\n' then ' ' else c

/-- Line 48: the two replace passes on text_to_speak.  Newlines become
single spaces; carriage returns are removed outright. -/
def normalizeText (s : Str) : Str :=
  (s.map replNl).filter (fun c => c != '\r')

/-- Whitespace characters stripped by Python str.strip() (ASCII range). -/
def isPySpace (c : Char) : Bool :=
  c = ' ' || c = '\t' || c = '\n' || c = '\r' || c = '\x0b' || c = '\x0c'

/-- Python str.strip(): drop whitespace from both ends. -/
def pyStrip (s : Str) : Str :=
  ((s.dropWhile isPySpace).reverse.dropWhile isPySpace).reverse

/-- Helper for splitPS: prepend a character to the first fragment. -/
def consHead (c : Char) : List Str → List Str
  | [] => [[c]]
  | h :: t => (c :: h) :: t

/-- Line 49: processed_text.split on the two-character period-space
separator, Python str.split semantics: scanning left to right, keeping
empty fragments. -/
def splitPS : Str → List Str
  | [] => [[]]
  | '.' :: ' ' :: rest => [] :: splitPS rest
  | c :: rest => consHead c (splitPS rest)

/-- Whether the two-character delimiter ". " occurs in the text. -/
def containsPS : Str → Bool
  | [] => false
  | '.' :: ' ' :: _ => true
  | _ :: rest => containsPS rest

/-- The loop of lines 51-55 over the fragments paired with their split
positions: each fragment is stripped; empty fragments are dropped; every
kept fragment gets a trailing period back except the one at the last split
position (i < len(potential_chunks) - 1). -/
def buildChunks (potential : List Str) : List Str :=
  potential.enum.filterMap (fun p =>
    let trimmed := pyStrip p.2
    if trimmed.isEmpty then none
    else if p.1 < potential.length - 1 then some (trimmed ++ ['.'])
    else some trimmed)

/-- Lines 48-55: the chunk list built by ChunkProcessorWorker.__init__. -/
def textChunks (t : Str) : List Str :=
  buildChunks (splitPS (normalizeText t))

/-- The chunking pipeline as the specification words it: split the
normalized text, pair each fragment with its original split position, trim,
drop empties, and re-append a period to every kept fragment except the one
that was originally last in the split sequence. -/
def chunksSpecC4 (t : Str) : List Str :=
  let frags := splitPS (normalizeText t)
  (((frags.enum.map (fun p => (p.1, pyStrip p.2))).filter
      (fun p => !p.2.isEmpty)).map
    (fun p => if p.1 = frags.length - 1 then p.2 else p.2 ++ ['.']))

/-- Modelled from the spec: the claim C6 reading of normalization, in which
every line break of any kind (LF, CR, CRLF) is replaced by exactly one
space.  Used only to compare against the source normalization. -/
def replaceLineBreaksSpec : Str → Str
  | [] => []
  | '\r' :: '\n' :: rest => ' ' :: replaceLineBreaksSpec rest
  | '\r' :: rest => ' ' :: replaceLineBreaksSpec rest
  | '\n' :: rest => ' ' :: replaceLineBreaksSpec rest
  | c :: rest => c :: replaceLineBreaksSpec rest

/-- PiperAPIGUIWindow.start_synthesis validation (lines 687-699): the
worker is created only when the stripped API URL starts with "http", the
stripped text is non-empty and the stripped output path is non-empty. -/
def startSynthesisOk (apiUrl text outputPath : Str) : Bool :=
  (List.isPrefixOf ['h', 't', 't', 'p'] (pyStrip apiUrl))
    && !(pyStrip text).isEmpty && !(pyStrip outputPath).isEmpty

/-! ### The run loop (ChunkProcessorWorker.run, lines 66-177) -/

abbrev Path := Str

/-- An observable event of one run, in the order the coordinating thread
sees it: a completion of the fetch for chunk index i (some path on success,
none on failure; a per-chunk exception behaves the same as none once the
flag is set, see lines 105-129), or a stop request from the GUI thread
(ChunkProcessorWorker.stop, line 320). -/
inductive RunEvent
  | stopReq : RunEvent
  | complete : Nat → Option Path → RunEvent
deriving DecidableEq

/-- Mutable state of the run: the index-keyed results dict (as an
association list in insertion order) and the _stop_requested flag. -/
structure RunState where
  results : List (Nat × Path)
  stopRequested : Bool
deriving DecidableEq

/-- The as_completed drain loop (lines 94-129) together with stop events.
A completion seen with the flag set is skipped (line 95-101); a successful
completion is recorded into results (line 108); a failed completion with
the flag clear sets the flag and breaks out of the loop (lines 112-119). -/
def drainLoop : List RunEvent → RunState → RunState
  | [], st => st
  | RunEvent.stopReq :: rest, st =>
      drainLoop rest { st with stopRequested := true }
  | RunEvent.complete i r :: rest, st =>
      if st.stopRequested then drainLoop rest st
      else
        match r with
        | some p => drainLoop rest { st with results := st.results ++ [(i, p)] }
        | none => { st with stopRequested := true }

/-- Lookup of results[i] in the association-list model of the dict. -/
def lookupResult (i : Nat) (rs : List (Nat × Path)) : Option Path :=
  (rs.find? (fun e => e.1 == i)).map (fun e => e.2)

/-- Outcome of one run: whether the final artifact write was reached, the
index-ordered segment list handed to the combiner, and the temp files the
run deletes. -/
structure RunOutcome where
  outputWritten : Bool
  outputSegments : List Path
  cleaned : List Path
deriving DecidableEq

/-- Post-processing of ChunkProcessorWorker.run (lines 131-177): if the
stop flag is set or fewer than total results were recorded, clean up the
recorded files and return with no output (lines 136-141); otherwise order
the results by chunk index (line 145: sorted(results.keys())), combine them
into the final artifact and clean up (lines 165-177).  The combine phase
itself is modelled separately by combineWavFiles. -/
def runWorker (total : Nat) (evs : List RunEvent) : RunOutcome :=
  let st := drainLoop evs { results := [], stopRequested := false }
  let created := st.results.map (fun e => e.2)
  if st.stopRequested || decide (st.results.length < total) then
    { outputWritten := false, outputSegments := [], cleaned := created }
  else
    let ordered := (List.insertionSort (· ≤ ·) (st.results.map (fun e => e.1))).filterMap
      (fun i => lookupResult i st.results)
    { outputWritten := true, outputSegments := ordered, cleaned := ordered }

/-- Indices of all completion events of a run. -/
def completionIndices (evs : List RunEvent) : List Nat :=
  evs.filterMap (fun e =>
    match e with
    | RunEvent.complete i _ => some i
    | _ => none)

/-- Temp artifacts actually written to disk during the run: a fetch that
completes with some path has written that file (lines 203-225). -/
def createdTempFiles (evs : List RunEvent) : List Path :=
  evs.filterMap (fun e =>
    match e with
    | RunEvent.complete _ (some p) => some p
    | _ => none)

/-- The (index, path) pairs of all successful completion events. -/
def successPairs (evs : List RunEvent) : List (Nat × Path) :=
  evs.filterMap (fun e =>
    match e with
    | RunEvent.complete i (some p) => some (i, p)
    | _ => none)

/-! ### ChunkFetcher (ChunkProcessorWorker._synthesize_chunk, lines 179-263) -/

/-- What the network round trip for one chunk does: raise a timeout, raise
a transport-level RequestException, raise some other exception, or return a
response with the given status code. -/
inductive NetResult
  | timeout : NetResult
  | reqException : NetResult
  | otherException : NetResult
  | response : Nat → NetResult
deriving DecidableEq

/-- Environment of one _synthesize_chunk call: the value the shared
_stop_requested flag has at each checkpoint the code reads it, and what the
network and the local disk do. -/
structure FetchEnv where
  stopAtStart : Bool
  net : NetResult
  stopAfterResponse : Bool
  saveException : Bool
  stopDuringStream : Bool
  removeFails : Bool
  fileValid : Bool
  stopAtHandler : Bool
deriving DecidableEq

/-- _synthesize_chunk (lines 179-263): returns the temp path on success or
none on failure/cancellation, together with the severities of the log
messages it emits, in order.  The timeout handler (line 243) logs an ERROR
unconditionally; the RequestException and generic handlers (lines 247, 255)
log a WARNING instead when the stop flag is already set. -/
def synthesizeChunk (env : FetchEnv) (tempPath : Path) : Option Path × List Nat :=
  if env.stopAtStart then (none, [sevWarning])
  else
    match env.net with
    | NetResult.timeout => (none, [sevInfo, sevError])
    | NetResult.reqException =>
        if env.stopAtHandler then (none, [sevInfo, sevWarning])
        else (none, [sevInfo, sevError])
    | NetResult.otherException =>
        if env.stopAtHandler then (none, [sevInfo, sevWarning])
        else (none, [sevInfo, sevError])
    | NetResult.response status =>
        if env.stopAfterResponse then (none, [sevInfo, sevWarning])
        else if status = 200 then
          if env.saveException then (none, [sevInfo, sevError])
          else if env.stopDuringStream then
            (none, [sevInfo, sevWarning]
              ++ (if env.removeFails then [sevError] else []) ++ [sevWarning])
          else if env.fileValid then (some tempPath, [sevInfo, sevInfo])
          else (none, [sevInfo, sevError])
        else (none, [sevInfo, sevError])

/-! ### AudioStitcher (ChunkProcessorWorker._combine_wav_files, lines 266-299) -/

/-- The full six-field result of wave.getparams: nchannels, sampwidth,
framerate, nframes, comptype, compname.  The equality check at line 291
compares this whole tuple, frame count included, so two files of the same
audio format but different length still compare unequal. -/
structure WavParams where
  nchannels : Nat
  sampwidth : Nat
  framerate : Nat
  nframes : Nat
  comptype : Str
  compname : Str
deriving DecidableEq

/-- The AudioFormat of the specification (section 3): channels, sample
rate and bit depth only, derived from a getparams tuple. -/
structure AudioFormat where
  nchannels : Nat
  sampwidth : Nat
  framerate : Nat
deriving DecidableEq

/-- The format part of a getparams tuple. -/
def formatOfParams (p : WavParams) : AudioFormat :=
  { nchannels := p.nchannels, sampwidth := p.sampwidth, framerate := p.framerate }

/-- One WAV artifact on disk: its byte size, parameters and frame data. -/
structure WavData where
  size : Nat
  params : WavParams
  frames : List Nat
deriving DecidableEq

/-- The temporary-file area of the disk, as an association list. -/
abbrev FS := List (Path × WavData)

/-- os.path.exists plus reading the file, combined. -/
def fsLookup (fs : FS) (p : Path) : Option WavData :=
  (fs.find? (fun e => e.1 == p)).map (fun e => e.2)

/-- Line 272 filter condition: os.path.exists(f) and os.path.getsize(f) > 0. -/
def isValidFile (fs : FS) (p : Path) : Bool :=
  match fsLookup fs p with
  | some d => decide (0 < d.size)
  | none => false

/-- wave.getparams of a file; the default is unreachable for files that
pass the validity filter. -/
def paramsOf (fs : FS) (p : Path) : WavParams :=
  match fsLookup fs p with
  | some d => d.params
  | none => { nchannels := 0, sampwidth := 0, framerate := 0, nframes := 0,
              comptype := [], compname := [] }

/-- readframes(getnframes()) of a file; unreachable default as above. -/
def framesOf (fs : FS) (p : Path) : List Nat :=
  match fsLookup fs p with
  | some d => d.frames
  | none => []

/-- The two ValueError messages _combine_wav_files can raise
(lines 269 and 274). -/
inductive CombineErr
  | noInput : CombineErr
  | noValid : CombineErr
deriving DecidableEq

/-- Result of _combine_wav_files: a raised ValueError, or the written
output (its parameters, its concatenated frames, and the files for which a
parameters-mismatch warning was logged, in order). -/
inductive CombineResult
  | failure : CombineErr → CombineResult
  | ok : WavParams → List Nat → List Path → CombineResult
deriving DecidableEq

/-- The write loop of _combine_wav_files (lines 288-296): append the
frames of each file to the output, logging one warning (naming the file,
line 292) per file whose full getparams tuple differs from that of the
first valid file (line 291). -/
def combineLoop (fs : FS) (params : WavParams) : List Path → List Nat × List Path
  | [] => ([], [])
  | f :: rest =>
      let tailRes := combineLoop fs params rest
      (framesOf fs f ++ tailRes.1,
       (if paramsOf fs f ≠ params then [f] else []) ++ tailRes.2)

/-- _combine_wav_files (lines 266-299): reject an empty input list, filter
to valid files, reject if none remain, take the parameters of the first
valid file, and append the frames of every valid file. -/
def combineWavFiles (fs : FS) (inputs : List Path) : CombineResult :=
  if inputs.isEmpty then CombineResult.failure CombineErr.noInput
  else
    match inputs.filter (isValidFile fs) with
    | [] => CombineResult.failure CombineErr.noValid
    | v0 :: rest =>
        let params := paramsOf fs v0
        let res := combineLoop fs params (v0 :: rest)
        CombineResult.ok params res.1 res.2

/-! ### TempArtifactJanitor (ChunkProcessorWorker._cleanup_temp_files, lines 301-313) -/

/-- _cleanup_temp_files: delete each listed file that exists; a deletion
failure (failsDelete) is logged and the loop continues with the remaining
files.  Returns the files remaining on disk and the deleted count. -/
def cleanupTempFiles (failsDelete : Path → Bool) (disk : List Path) :
    List Path → List Path × Nat
  | [] => (disk, 0)
  | f :: rest =>
      if disk.contains f then
        if failsDelete f then cleanupTempFiles failsDelete disk rest
        else
          let res := cleanupTempFiles failsDelete (disk.erase f) rest
          (res.1, res.2 + 1)
      else cleanupTempFiles failsDelete disk rest

/-! ### Bounded worker pool (ThreadPoolExecutor, line 62 and 79) -/

/-- Line 62: self.max_workers = 12. -/
def maxWorkers : Nat := 12

/-- Modelled from the spec: the bounded-concurrency contract of
concurrent.futures.ThreadPoolExecutor (an external library whose
implementation is not in the repository).  State is (pending, inFlight)
task counts; a pending task may start only while fewer than the bound are
in flight; an in-flight task may finish. -/
inductive PoolStep (bound : Nat) : Nat × Nat → Nat × Nat → Prop
  | submit (pending inFlight : Nat) :
      inFlight < bound → 0 < pending →
      PoolStep bound (pending, inFlight) (pending - 1, inFlight + 1)
  | finish (pending inFlight : Nat) :
      0 < inFlight →
      PoolStep bound (pending, inFlight) (pending, inFlight - 1)

/-- States reachable from the start of a run with p0 chunks queued and
nothing in flight. -/
inductive PoolReach (bound p0 : Nat) : Nat × Nat → Prop
  | init : PoolReach bound p0 (p0, 0)
  | step {s t : Nat × Nat} : PoolReach bound p0 s → PoolStep bound s t →
      PoolReach bound p0 t

/-! ### The /synthesize endpoint (src/server/piper_api.py, lines 40-104) -/

/-- What the piper subprocess does for a given input text: Popen raises
FileNotFoundError, or the process runs with a return code, stdout audio
bytes and stderr text. -/
inductive PiperResult
  | notFound : PiperResult
  | ran : Int → List Nat → Str → PiperResult

/-- An incoming POST /synthesize request: whether the body is JSON, and
the value of the text field when it is. -/
structure SynthRequest where
  isJson : Bool
  textField : Option Str

/-- A response from the endpoint: jsonify({"error": ...}) with a status
code, or a 200 audio body. -/
inductive ApiResponse
  | jsonError : Nat → Str → ApiResponse
  | audioBody : List Nat → ApiResponse

/-- The synthesize view function (lines 41-104), paired with whether the
piper subprocess was invoked. -/
def synthesize (piper : Str → PiperResult) (req : SynthRequest) :
    ApiResponse × Bool :=
  if !req.isJson then
    (ApiResponse.jsonError 400 ("Request must be JSON".toList), false)
  else
    match req.textField with
    | none =>
        (ApiResponse.jsonError 400 ("Missing text in JSON payload".toList), false)
    | some t =>
        if t.isEmpty then
          (ApiResponse.jsonError 400 ("Missing text in JSON payload".toList), false)
        else
          match piper t with
          | PiperResult.notFound =>
              (ApiResponse.jsonError 500
                ("Server configuration error: Piper executable not found".toList), true)
          | PiperResult.ran rc out err =>
              if rc ≠ 0 then
                (ApiResponse.jsonError 500 (("Piper failed: ".toList) ++ err), true)
              else if out.isEmpty then
                (ApiResponse.jsonError 500 ("Piper produced no audio data".toList), true)
              else (ApiResponse.audioBody out, true)

/-! ### Concrete inputs used by witnesses and counterexamples -/

/-- A fetch environment in which the request times out while a stop had
already been requested by the time the handler runs. -/
def envTimeoutStop : FetchEnv :=
  { stopAtStart := false, net := NetResult.timeout, stopAfterResponse := false,
    saveException := false, stopDuringStream := false, removeFails := false,
    fileValid := false, stopAtHandler := true }

/-- A fetch environment in which the request raises a transport-level
RequestException while a stop had already been requested. -/
def envReqExcStop : FetchEnv :=
  { stopAtStart := false, net := NetResult.reqException, stopAfterResponse := false,
    saveException := false, stopDuringStream := false, removeFails := false,
    fileValid := false, stopAtHandler := true }

/-- Mono 16-bit 22.05 kHz with two frames, the usual piper output shape. -/
def wavP1 : WavParams :=
  { nchannels := 1, sampwidth := 2, framerate := 22050, nframes := 2,
    comptype := "NONE".toList, compname := "not compressed".toList }

/-- A different format (stereo, one frame), for the mismatch scenario. -/
def wavP2 : WavParams :=
  { nchannels := 2, sampwidth := 2, framerate := 22050, nframes := 1,
    comptype := "NONE".toList, compname := "not compressed".toList }

/-- A disk with two valid WAV artifacts of differing formats. -/
def fsW : FS :=
  [(['a'], { size := 44, params := wavP1, frames := [10, 11] }),
   (['b'], { size := 44, params := wavP2, frames := [20] })]

/-- Segment path for chunk i in the two-chunk witness run. -/
def segW : Nat → Path := fun i => if i = 0 then ['a'] else ['b']

/-- A two-chunk all-success run whose completions arrive in reverse order. -/
def evsW : List RunEvent :=
  [RunEvent.complete 1 (some ['b']), RunEvent.complete 0 (some ['a'])]

end PiperTTS

namespace PiperTTS

/-! ## Helper lemmas about the chunker -/

theorem splitPS_of_not_contains (s : Str) (h : containsPS s = false) :
    splitPS s = [s] := by
  induction s using splitPS.induct with
  | case1 => rfl
  | case2 rest ih => simp [containsPS] at h
  | case3 c rest hside ih =>
    rw [splitPS.eq_3 c rest hside]
    rw [containsPS.eq_3 c rest hside] at h
    rw [ih h]
    rfl

theorem dot_mem_of_containsPS (s : Str) (h : containsPS s = true) :
    ('.' : Char) ∈ s := by
  induction s using containsPS.induct with
  | case1 => simp [containsPS] at h
  | case2 rest => exact List.mem_cons_self _ _
  | case3 c rest hside ih =>
    rw [containsPS.eq_3 c rest hside] at h
    exact List.mem_cons_of_mem c (ih h)

theorem containsPS_eq_false_of_all_space (s : Str)
    (h : ∀ c ∈ s, isPySpace c = true) : containsPS s = false := by
  cases hc : containsPS s
  · rfl
  · exact absurd (h '.' (dot_mem_of_containsPS s hc)) (by decide)

theorem pyStrip_eq_nil_iff (s : Str) :
    pyStrip s = [] ↔ ∀ c ∈ s, isPySpace c = true := by
  unfold pyStrip
  constructor
  · intro h c hc
    have h1 : (s.dropWhile isPySpace).reverse.dropWhile isPySpace = [] := by
      simpa using h
    have h2 := List.dropWhile_eq_nil_iff.mp h1
    have h3 : ∀ x ∈ s.dropWhile isPySpace, isPySpace x = true := by
      intro x hx
      exact h2 x (by simpa using hx)
    rw [← List.takeWhile_append_dropWhile isPySpace s] at hc
    rcases List.mem_append.mp hc with hx | hx
    · exact List.mem_takeWhile_imp hx
    · exact h3 c hx
  · intro h
    rw [List.dropWhile_eq_nil_iff.mpr h]
    rfl

theorem mem_normalizeText_space (s : Str)
    (h : ∀ c ∈ s, isPySpace c = true) :
    ∀ c ∈ normalizeText s, isPySpace c = true := by
  intro c hc
  have hc2 : c ∈ s.map replNl := List.mem_of_mem_filter hc
  rcases List.mem_map.mp hc2 with ⟨d, hd, rfl⟩
  by_cases hdn : d = '\n'
  · subst hdn; decide
  · simpa [replNl, hdn] using h d hd

theorem normalizeText_idem (s : Str) :
    normalizeText (normalizeText s) = normalizeText s := by
  have h1 : ∀ c ∈ normalizeText s, replNl c = c := by
    intro c hc
    have hc2 : c ∈ s.map replNl := List.mem_of_mem_filter hc
    rcases List.mem_map.mp hc2 with ⟨d, hd, rfl⟩
    by_cases hdn : d = '\n'
    · subst hdn; decide
    · simp [replNl, hdn]
  have h2 : ∀ c ∈ normalizeText s, (c != '\r') = true := by
    intro c hc
    exact (List.mem_filter.mp hc).2
  show ((normalizeText s).map replNl).filter (fun c => c != '\r') = normalizeText s
  rw [List.map_congr_left h1, List.map_id', List.filter_eq_self.mpr h2]

theorem filterMap_eq_map_filter_map {α β γ : Type} (f : α → Option β)
    (h : α → γ) (q : γ → Bool) (g : γ → β) (l : List α)
    (H : ∀ x ∈ l, f x = if q (h x) then some (g (h x)) else none) :
    l.filterMap f = ((l.map h).filter q).map g := by
  induction l with
  | nil => simp
  | cons a t ih =>
    have ha := H a (List.mem_cons_self a t)
    have ht : ∀ x ∈ t, f x = if q (h x) then some (g (h x)) else none :=
      fun x hx => H x (List.mem_cons_of_mem a hx)
    simp only [List.filterMap_cons, List.map_cons, List.filter_cons]
    cases hq : q (h a)
    · rw [ha, hq]
      simpa using ih ht
    · rw [ha, hq]
      simpa using ih ht

theorem buildChunks_eq_spec (frags : List Str) :
    buildChunks frags =
      (((frags.enum.map (fun p => (p.1, pyStrip p.2))).filter
          (fun p => !p.2.isEmpty)).map
        (fun p => if p.1 = frags.length - 1 then p.2 else p.2 ++ ['.'])) := by
  unfold buildChunks
  apply filterMap_eq_map_filter_map
  intro x hx
  have hx1 : x.1 < frags.length := by
    have := List.mem_enum_iff_getElem?.mp hx
    exact (List.getElem?_eq_some.mp this).1
  cases he : (pyStrip x.2).isEmpty
  · simp only [he, Bool.not_false, if_true, if_false]
    by_cases hlt : x.1 < frags.length - 1
    · have hne : ¬ x.1 = frags.length - 1 := by omega
      simp [hlt, hne]
    · have heq : x.1 = frags.length - 1 := by omega
      simp [hlt, heq]
  · simp [he]

theorem buildChunks_singleton (s : Str) :
    buildChunks [s] = if pyStrip s = [] then [] else [pyStrip s] := by
  unfold buildChunks
  have he : ([s] : List Str).enum = [(0, s)] := rfl
  rw [he]
  by_cases h : pyStrip s = []
  · simp [List.filterMap_cons, h]
  · simp [List.filterMap_cons, h, List.isEmpty_iff]


/-! ## Claims C4, C5, C6: the chunker -/

/-- Claim C4: for every input text, the chunker splits the normalized text
on the two-character delimiter ". ", trims each fragment, drops empty
fragments, and re-appends a trailing period to every kept fragment except
the fragment that was originally last in the split sequence; in particular
the stated three-sentence input yields exactly the three stated chunks. -/
theorem textChunks_spec_and_example :
    (∀ t : Str, textChunks t = chunksSpecC4 t) ∧
    textChunks ("Hello world. This is a test. Final sentence".toList) =
      ["Hello world.".toList, "This is a test.".toList, "Final sentence".toList] := by
  constructor
  · intro t
    simp only [textChunks, chunksSpecC4]
    exact buildChunks_eq_spec (splitPS (normalizeText t))
  · decide

/-- Claim C5 counterexample: the raw input "a.\nb" contains no occurrence
of the two-character delimiter ". ", yet the chunker yields two chunks, not
one chunk equal to the trimmed whole text (normalization inserts the
delimiter first). -/
theorem textChunks_no_delim_counterexample :
    containsPS ("a.\nb".toList) = false ∧
    textChunks ("a.\nb".toList) ≠ [pyStrip ("a.\nb".toList)] ∧
    (textChunks ("a.\nb".toList)).length = 2 := by decide

/-- Claim C5 (amended): for every text whose NORMALIZED form contains no
occurrence of ". ", the chunker yields the single chunk given by trimming
the normalized text when that is non-empty, and no chunks when it is empty;
every whitespace-only text yields zero chunks and start_synthesis refuses
to start the job. -/
theorem textChunks_no_delim_normalized (t apiUrl outPath : Str) :
    (containsPS (normalizeText t) = false →
      textChunks t =
        if pyStrip (normalizeText t) = [] then [] else [pyStrip (normalizeText t)]) ∧
    (pyStrip t = [] → textChunks t = [] ∧ startSynthesisOk apiUrl t outPath = false) := by
  have main : containsPS (normalizeText t) = false →
      textChunks t =
        if pyStrip (normalizeText t) = [] then [] else [pyStrip (normalizeText t)] := by
    intro h
    unfold textChunks
    rw [splitPS_of_not_contains _ h, buildChunks_singleton]
  refine ⟨main, fun hw => ?_⟩
  have hall : ∀ c ∈ t, isPySpace c = true := (pyStrip_eq_nil_iff t).mp hw
  have hn : ∀ c ∈ normalizeText t, isPySpace c = true := mem_normalizeText_space t hall
  have hc : containsPS (normalizeText t) = false := containsPS_eq_false_of_all_space _ hn
  have hs : pyStrip (normalizeText t) = [] := (pyStrip_eq_nil_iff _).mpr hn
  constructor
  · rw [main hc, if_pos hs]
  · simp [startSynthesisOk, hw]

/-- Witness for the amended C5 at a whitespace-only input. -/
theorem textChunks_no_delim_normalized_witness :
    (textChunks [' '] =
      if pyStrip (normalizeText [' ']) = [] then [] else [pyStrip (normalizeText [' '])]) ∧
    textChunks [' '] = [] ∧ startSynthesisOk "http://x".toList [' '] "o.wav".toList = false := by
  have h := textChunks_no_delim_normalized [' '] ("http://x".toList) ("o.wav".toList)
  exact ⟨h.1 (by decide), h.2 (by decide)⟩

/-- Claim C6 counterexample: for the input "a\rb", chunking the input is
not the same as chunking the input with its line break replaced by exactly
one space: the source deletes a lone CR instead of replacing it. -/
theorem textChunks_cr_counterexample :
    textChunks ("a\rb".toList) ≠ textChunks (replaceLineBreaksSpec ("a\rb".toList)) := by
  decide

/-- Claim C6 (amended): the chunker first normalizes by replacing each LF
with a single space and deleting each CR (so CRLF becomes one space but a
lone CR is deleted, not replaced); chunking any input equals chunking its
normalized form. -/
theorem textChunks_normalize_idem (t : Str) :
    textChunks (normalizeText t) = textChunks t := by
  unfold textChunks
  rw [normalizeText_idem]

/-! ## Claim C7: error conversion in the fetcher -/

/-- Claim C7 counterexample: a timeout with cancellation already requested
at the moment the handler runs is still reported as an ERROR log (line 243
does not check the stop flag), not suppressed as expected noise. -/
theorem synthesizeChunk_timeout_error_despite_stop :
    envTimeoutStop.stopAtHandler = true ∧
    (synthesizeChunk envTimeoutStop ['p']).1 = none ∧
    sevError ∈ (synthesizeChunk envTimeoutStop ['p']).2 := by decide

/-- Claim C7 (amended): timeouts and transport-level failures are caught
locally and converted into a failed (none) result rather than propagated;
a transport-level RequestException is suppressed to a WARNING when
cancellation was already requested and reported as an ERROR otherwise,
while a timeout is reported as an ERROR regardless of cancellation. -/
theorem synthesizeChunk_error_conversion (env : FetchEnv) (p : Path)
    (hstart : env.stopAtStart = false) :
    (env.net = NetResult.timeout →
      synthesizeChunk env p = (none, [sevInfo, sevError])) ∧
    (env.net = NetResult.reqException →
      synthesizeChunk env p =
        (none, [sevInfo, if env.stopAtHandler then sevWarning else sevError])) := by
  constructor
  · intro hn
    simp [synthesizeChunk, hstart, hn]
  · intro hn
    cases hh : env.stopAtHandler <;> simp [synthesizeChunk, hstart, hn, hh]

/-- Witness for the amended C7: a transport failure under a requested stop
is logged as a WARNING and yields a failed result. -/
theorem synthesizeChunk_error_conversion_witness :
    synthesizeChunk envReqExcStop ['p'] = (none, [sevInfo, sevWarning]) := by
  have h := (synthesizeChunk_error_conversion envReqExcStop ['p'] rfl).2 rfl
  simpa using h


/-! ## Helper lemmas about the run loop -/

theorem drainLoop_stopped (evs : List RunEvent) :
    ∀ st : RunState, st.stopRequested = true → drainLoop evs st = st := by
  induction evs with
  | nil => intro st _; rfl
  | cons e rest ih =>
    intro st hst
    match e with
    | RunEvent.stopReq =>
      have hset : ({ st with stopRequested := true } : RunState) = st := by
        cases st
        simp_all
      show drainLoop rest { st with stopRequested := true } = st
      rw [hset, ih st hst]
    | RunEvent.complete i r =>
      cases r with
      | some p => rw [drainLoop.eq_3, if_pos hst, ih st hst]
      | none => rw [drainLoop.eq_4, if_pos hst, ih st hst]

theorem drainLoop_stop_of_abort (evs : List RunEvent) :
    ∀ st : RunState,
      (RunEvent.stopReq ∈ evs ∨ ∃ i, RunEvent.complete i none ∈ evs) →
      (drainLoop evs st).stopRequested = true := by
  induction evs with
  | nil =>
    intro st h
    rcases h with h | ⟨i, h⟩ <;> simp at h
  | cons e rest ih =>
    intro st h
    match e with
    | RunEvent.stopReq =>
      show (drainLoop rest { st with stopRequested := true }).stopRequested = true
      rw [drainLoop_stopped rest _ rfl]
    | RunEvent.complete i r =>
      cases hst : st.stopRequested
      · cases r with
        | some p =>
          rw [drainLoop.eq_3, if_neg (by simp [hst])]
          have habort : RunEvent.stopReq ∈ rest ∨ ∃ j, RunEvent.complete j none ∈ rest := by
            rcases h with h | ⟨j, h⟩
            · rcases List.mem_cons.mp h with h1 | h1
              · exact absurd h1 (by simp)
              · exact Or.inl h1
            · rcases List.mem_cons.mp h with h1 | h1
              · exact absurd h1 (by simp)
              · exact Or.inr ⟨j, h1⟩
          exact ih _ habort
        | none =>
          rw [drainLoop.eq_4, if_neg (by simp [hst])]
      · have hred : drainLoop (RunEvent.complete i r :: rest) st = drainLoop rest st := by
          cases r with
          | some p => rw [drainLoop.eq_3, if_pos hst]
          | none => rw [drainLoop.eq_4, if_pos hst]
        rw [hred, drainLoop_stopped rest st hst]
        exact hst

theorem drainLoop_keys_sublist (evs : List RunEvent) :
    ∀ st : RunState,
      List.Sublist ((drainLoop evs st).results.map Prod.fst)
        (st.results.map Prod.fst ++ completionIndices evs) := by
  induction evs with
  | nil =>
    intro st
    simp [completionIndices, drainLoop]
  | cons e rest ih =>
    intro st
    match e with
    | RunEvent.stopReq =>
      have hci : completionIndices (RunEvent.stopReq :: rest) = completionIndices rest := by
        simp [completionIndices]
      rw [hci]
      exact ih { st with stopRequested := true }
    | RunEvent.complete i r =>
      have hci : completionIndices (RunEvent.complete i r :: rest) =
          i :: completionIndices rest := by
        simp [completionIndices]
      rw [hci]
      cases hst : st.stopRequested
      · cases r with
        | some p =>
          rw [drainLoop.eq_3, if_neg (by simp [hst])]
          have h1 := ih { st with results := st.results ++ [(i, p)] }
          have h2 : ({ st with results := st.results ++ [(i, p)] } : RunState).results.map Prod.fst
              ++ completionIndices rest
              = st.results.map Prod.fst ++ (i :: completionIndices rest) := by
            simp
          rw [h2] at h1
          exact h1
        | none =>
          rw [drainLoop.eq_4, if_neg (by simp [hst])]
          exact List.sublist_append_left _ _
      · have hred : drainLoop (RunEvent.complete i r :: rest) st = drainLoop rest st := by
          cases r with
          | some p => rw [drainLoop.eq_3, if_pos hst]
          | none => rw [drainLoop.eq_4, if_pos hst]
        rw [hred]
        exact (ih st).trans ((List.sublist_cons_self i _).append_left _)

theorem drainLoop_mem_results (evs : List RunEvent) :
    ∀ (st : RunState) (i : Nat) (p : Path),
      (i, p) ∈ (drainLoop evs st).results →
      (i, p) ∈ st.results ∨ RunEvent.complete i (some p) ∈ evs := by
  induction evs with
  | nil =>
    intro st i p h
    exact Or.inl h
  | cons e rest ih =>
    intro st i p h
    match e with
    | RunEvent.stopReq =>
      rcases ih { st with stopRequested := true } i p h with h2 | h2
      · exact Or.inl h2
      · exact Or.inr (List.mem_cons_of_mem _ h2)
    | RunEvent.complete j r =>
      cases hst : st.stopRequested
      · cases r with
        | some q =>
          rw [drainLoop.eq_3, if_neg (by simp [hst])] at h
          rcases ih { st with results := st.results ++ [(j, q)] } i p h with h2 | h2
          · rcases List.mem_append.mp h2 with h3 | h3
            · exact Or.inl h3
            · have h4 : (i, p) = (j, q) := by simpa using h3
              rw [Prod.mk.injEq] at h4
              refine Or.inr (List.mem_cons.mpr (Or.inl ?_))
              rw [h4.1, h4.2]
          · exact Or.inr (List.mem_cons_of_mem _ h2)
        | none =>
          rw [drainLoop.eq_4, if_neg (by simp [hst])] at h
          exact Or.inl h
      · have hred : drainLoop (RunEvent.complete j r :: rest) st = drainLoop rest st := by
          cases r with
          | some q => rw [drainLoop.eq_3, if_pos hst]
          | none => rw [drainLoop.eq_4, if_pos hst]
        rw [hred] at h
        rcases ih st i p h with h2 | h2
        · exact Or.inl h2
        · exact Or.inr (List.mem_cons_of_mem _ h2)

theorem drainLoop_all_success (evs : List RunEvent) :
    ∀ st : RunState,
      (∀ e ∈ evs, ∃ j q, e = RunEvent.complete j (some q)) →
      st.stopRequested = false →
      drainLoop evs st =
        { results := st.results ++ successPairs evs, stopRequested := false } := by
  induction evs with
  | nil =>
    intro st _ hst
    cases st
    simp_all [successPairs, drainLoop]
  | cons e rest ih =>
    intro st hall hst
    rcases hall e (List.mem_cons_self e rest) with ⟨j, q, rfl⟩
    have hsp : successPairs (RunEvent.complete j (some q) :: rest) =
        (j, q) :: successPairs rest := by
      simp [successPairs]
    rw [hsp, drainLoop.eq_3, if_neg (by simp [hst])]
    rw [ih { st with results := st.results ++ [(j, q)] }
        (fun e he => hall e (List.mem_cons_of_mem _ he)) hst]
    simp

theorem mem_of_nodup_bounded_long {keys : List Nat} {total : Nat}
    (hnd : keys.Nodup) (hlt : ∀ i ∈ keys, i < total)
    (hlen : total ≤ keys.length) : ∀ i, i < total → i ∈ keys := by
  intro i hi
  have hsub : keys.toFinset ⊆ Finset.range total := by
    intro j hj
    exact Finset.mem_range.mpr (hlt j (List.mem_toFinset.mp hj))
  have hcard : (Finset.range total).card ≤ keys.toFinset.card := by
    rw [Finset.card_range, List.toFinset_card_of_nodup hnd]
    exact hlen
  have heq : keys.toFinset = Finset.range total :=
    Finset.eq_of_subset_of_card_le hsub hcard
  have hmem : i ∈ keys.toFinset := by
    rw [heq]
    exact Finset.mem_range.mpr hi
  exact List.mem_toFinset.mp hmem


/-! ## Claim C1: no partial-success output -/

/-- Claim C1: the final output artifact is written only if every one of the
total chunk indices completed with Success and neither a failure nor a stop
request occurred; conversely any failed completion or stop request routes
the run to cleanup with no output artifact.  The hypotheses state that each
chunk completes at most once and completion indices come from the submitted
range, which the executor guarantees (one future per chunk index). -/
theorem runWorker_all_or_nothing (total : Nat) (evs : List RunEvent)
    (hnd : (completionIndices evs).Nodup)
    (hlt : ∀ i ∈ completionIndices evs, i < total) :
    ((runWorker total evs).outputWritten = true →
      (∀ i, i < total → ∃ p, RunEvent.complete i (some p) ∈ evs) ∧
      RunEvent.stopReq ∉ evs ∧ (∀ i, RunEvent.complete i none ∉ evs)) ∧
    ((RunEvent.stopReq ∈ evs ∨ ∃ i, RunEvent.complete i none ∈ evs) →
      (runWorker total evs).outputWritten = false ∧
      (runWorker total evs).outputSegments = []) := by
  have hsub := drainLoop_keys_sublist evs { results := [], stopRequested := false }
  set st := drainLoop evs { results := [], stopRequested := false } with hstdef
  constructor
  · intro hw
    cases hg : (st.stopRequested || decide (st.results.length < total)) with
    | true =>
      exfalso
      have hrw : runWorker total evs =
          { outputWritten := false, outputSegments := [],
            cleaned := st.results.map (fun e => e.2) } := by
        simp only [runWorker, ← hstdef, hg, if_true]
      rw [hrw] at hw
      simp at hw
    | false =>
      have hstop : st.stopRequested = false := (Bool.or_eq_false_iff.mp hg).1
      have hlen : total ≤ st.results.length := by
        have h3 : ¬ (st.results.length < total) :=
          of_decide_eq_false (Bool.or_eq_false_iff.mp hg).2
        omega
      refine ⟨?_, ?_, ?_⟩
      · intro i hi
        have hk2 : List.Sublist (st.results.map Prod.fst) (completionIndices evs) := by
          simpa using hsub
        have hknd : (st.results.map Prod.fst).Nodup := hk2.nodup hnd
        have hkins : ∀ j ∈ st.results.map Prod.fst, j < total := fun j hj =>
          hlt j (hk2.subset hj)
        have hklen : total ≤ (st.results.map Prod.fst).length := by
          rw [List.length_map]
          exact hlen
        have hmem := mem_of_nodup_bounded_long hknd hkins hklen i hi
        rcases List.mem_map.mp hmem with ⟨pr, hpr, hfst⟩
        rcases drainLoop_mem_results evs _ pr.1 pr.2 (by simpa using hpr) with h2 | h2
        · simp at h2
        · refine ⟨pr.2, ?_⟩
          rw [← hfst]
          exact h2
      · intro hmem
        have habort := drainLoop_stop_of_abort evs
          { results := [], stopRequested := false } (Or.inl hmem)
        rw [← hstdef] at habort
        rw [habort] at hstop
        exact absurd hstop (by simp)
      · intro i hmem
        have habort := drainLoop_stop_of_abort evs
          { results := [], stopRequested := false } (Or.inr ⟨i, hmem⟩)
        rw [← hstdef] at habort
        rw [habort] at hstop
        exact absurd hstop (by simp)
  · intro habort
    have hstop := drainLoop_stop_of_abort evs
      { results := [], stopRequested := false } habort
    rw [← hstdef] at hstop
    have hrw : runWorker total evs =
        { outputWritten := false, outputSegments := [],
          cleaned := st.results.map (fun e => e.2) } := by
      simp only [runWorker, ← hstdef, hstop, Bool.true_or, if_true]
    rw [hrw]
    exact ⟨rfl, rfl⟩

/-- Witness for C1: a run with a stop request and one success completion
ends with no output artifact. -/
theorem runWorker_all_or_nothing_witness :
    (runWorker 2 [RunEvent.stopReq, RunEvent.complete 0 (some ['a'])]).outputWritten = false ∧
    (runWorker 2 [RunEvent.stopReq, RunEvent.complete 0 (some ['a'])]).outputSegments = [] := by
  have h := runWorker_all_or_nothing 2 [RunEvent.stopReq, RunEvent.complete 0 (some ['a'])]
    (by decide) (by decide)
  exact h.2 (Or.inl (by decide))

/-! ## Claim C3: temporary artifacts after the run -/

/-- Claim C3 (code bug): in a 2-chunk run where chunk 0 fails and chunk 1
completed successfully (writing its temp artifact) with its completion seen
only after the abort break of the drain loop, the run cleans nothing
(created_temp_files is built from results.values() only, lines 133 and
138), so the artifact written for chunk 1 remains on disk after the run. -/
theorem temp_file_leak_on_abort :
    (runWorker 2 [RunEvent.complete 0 none,
        RunEvent.complete 1 (some ['f'])]).outputWritten = false ∧
    createdTempFiles [RunEvent.complete 0 none, RunEvent.complete 1 (some ['f'])] = [['f']] ∧
    (runWorker 2 [RunEvent.complete 0 none,
        RunEvent.complete 1 (some ['f'])]).cleaned = [] := by
  decide


/-! ## Helper lemmas for stitching -/

theorem successPairs_canonical (seg : Nat → Path) :
    ∀ l : List Nat,
      successPairs (l.map (fun i => RunEvent.complete i (some (seg i)))) =
        l.map (fun i => (i, seg i)) := by
  intro l
  induction l with
  | nil => rfl
  | cons a t ih =>
    simp only [List.map_cons, successPairs, List.filterMap_cons] at ih ⊢
    rw [ih]

theorem filterMap_eq_map_of_mem {α β : Type} (f : α → Option β) (g : α → β)
    (l : List α) (H : ∀ a ∈ l, f a = some (g a)) :
    l.filterMap f = l.map g := by
  induction l with
  | nil => rfl
  | cons a t ih =>
    have ha := H a (List.mem_cons_self a t)
    have ht : ∀ x ∈ t, f x = some (g x) := fun x hx => H x (List.mem_cons_of_mem a hx)
    simp [List.filterMap_cons, ha, ih ht]

theorem combineLoop_eq (fs : FS) (params : WavParams) :
    ∀ l : List Path,
      combineLoop fs params l =
        ((l.map (framesOf fs)).flatten,
         l.filter (fun p => paramsOf fs p ≠ params)) := by
  intro l
  induction l with
  | nil => rfl
  | cons f rest ih =>
    simp only [combineLoop, ih, List.map_cons, List.flatten, List.filter_cons]
    by_cases h : paramsOf fs f ≠ params
    · simp [h]
    · simp [h]

theorem combineWavFiles_ok (fs : FS) (inputs : List Path) (v0 : Path) (rest : List Path)
    (hfilter : inputs.filter (isValidFile fs) = v0 :: rest) :
    combineWavFiles fs inputs =
      CombineResult.ok (paramsOf fs v0)
        (((v0 :: rest).map (framesOf fs)).flatten)
        (rest.filter (fun p => paramsOf fs p ≠ paramsOf fs v0)) := by
  have hne : inputs.isEmpty = false := by
    cases inputs
    · simp at hfilter
    · rfl
  unfold combineWavFiles
  rw [hne, hfilter]
  simp only [Bool.false_eq_true, if_false]
  rw [combineLoop_eq]
  simp [List.filter_cons]


/-! ## Claim C2: index-ordered stitching -/

/-- Claim C2: for a run of total chunks in which every fetch succeeds, the
segments handed to the stitcher are the per-chunk artifacts in ascending
original chunk-index order, regardless of the order in which the
completions arrived (any permutation of the canonical completion list), and
the stitched output is the concatenation of the segment frames in that
order. -/
theorem runWorker_ordered_stitch (total : Nat) (seg : Nat → Path)
    (evs : List RunEvent) (fs : FS)
    (hperm : evs.Perm ((List.range total).map (fun i => RunEvent.complete i (some (seg i)))))
    (hfs : ∀ i < total, isValidFile fs (seg i) = true)
    (hpos : 0 < total) :
    (runWorker total evs).outputWritten = true ∧
    (runWorker total evs).outputSegments = (List.range total).map seg ∧
    ∃ w, combineWavFiles fs ((runWorker total evs).outputSegments) =
      CombineResult.ok (paramsOf fs (seg 0))
        (((List.range total).map (fun i => framesOf fs (seg i))).flatten) w := by
  have hall : ∀ e ∈ evs, ∃ j q, e = RunEvent.complete j (some q) := by
    intro e he
    have hmem : e ∈ (List.range total).map (fun i => RunEvent.complete i (some (seg i))) :=
      hperm.mem_iff.mp he
    rcases List.mem_map.mp hmem with ⟨i, _, rfl⟩
    exact ⟨i, seg i, rfl⟩
  have hdrain := drainLoop_all_success evs { results := [], stopRequested := false } hall rfl
  have hpairsperm : (successPairs evs).Perm ((List.range total).map (fun i => (i, seg i))) := by
    have h1 := List.Perm.filterMap (fun e =>
      match e with
      | RunEvent.complete i (some p) => some (i, p)
      | _ => none) hperm
    rw [show List.filterMap (fun e =>
        match e with
        | RunEvent.complete i (some p) => some (i, p)
        | _ => none) ((List.range total).map (fun i => RunEvent.complete i (some (seg i))))
      = successPairs ((List.range total).map (fun i => RunEvent.complete i (some (seg i))))
      from rfl] at h1
    rw [successPairs_canonical seg (List.range total)] at h1
    exact h1
  have hlenres : (successPairs evs).length = total := by
    rw [hpairsperm.length_eq, List.length_map, List.length_range]
  set st := drainLoop evs { results := [], stopRequested := false } with hstdef
  have hres : st.results = successPairs evs := by
    rw [hdrain]
    simp
  have hstop : st.stopRequested = false := by
    rw [hdrain]
  have hguard : (st.stopRequested || decide (st.results.length < total)) = false := by
    rw [hstop, hres, hlenres]
    simp
  have hrw : runWorker total evs =
      { outputWritten := true,
        outputSegments := (List.insertionSort (· ≤ ·)
            (st.results.map (fun e => e.1))).filterMap
          (fun i => lookupResult i st.results),
        cleaned := (List.insertionSort (· ≤ ·)
            (st.results.map (fun e => e.1))).filterMap
          (fun i => lookupResult i st.results) } := by
    simp only [runWorker, ← hstdef, hguard, Bool.false_eq_true, if_false]
  have hkeysperm : (st.results.map (fun e : Nat × Path => e.1)).Perm (List.range total) := by
    rw [hres]
    have h1 := hpairsperm.map (fun e : Nat × Path => e.1)
    rw [List.map_map] at h1
    have h2 : List.map ((fun e : Nat × Path => e.1) ∘ fun i => (i, seg i)) (List.range total)
        = List.range total := List.map_id' _
    rw [h2] at h1
    exact h1
  have hsorted : List.insertionSort (· ≤ ·) (st.results.map (fun e : Nat × Path => e.1))
      = List.range total :=
    List.eq_of_perm_of_sorted ((List.perm_insertionSort _ _).trans hkeysperm)
      (List.sorted_insertionSort _ _) (List.sorted_le_range total)
  have hlookup : ∀ i ∈ List.range total, lookupResult i st.results = some (seg i) := by
    intro i hi
    have hi2 : i < total := List.mem_range.mp hi
    have hmem : (i, seg i) ∈ st.results := by
      rw [hres]
      exact hpairsperm.mem_iff.mpr (List.mem_map.mpr ⟨i, List.mem_range.mpr hi2, rfl⟩)
    have hsome : (st.results.find? (fun e => e.1 == i)).isSome = true := by
      rw [List.find?_isSome]
      exact ⟨(i, seg i), hmem, by simp⟩
    rcases Option.isSome_iff_exists.mp hsome with ⟨x, hx⟩
    have hx1 : x.1 = i := by
      have h2 := List.find?_some hx
      simpa using h2
    have hxmem : x ∈ st.results := List.mem_of_find?_eq_some hx
    have hxcanon : x ∈ (List.range total).map (fun j => (j, seg j)) := by
      rw [hres] at hxmem
      exact hpairsperm.mem_iff.mp hxmem
    rcases List.mem_map.mp hxcanon with ⟨j, _, hj⟩
    have hx2 : x.2 = seg i := by
      have hj1 : j = i := by
        rw [← hj] at hx1
        simpa using hx1
      rw [← hj, hj1]
    unfold lookupResult
    rw [hx]
    simp [hx2]
  have hsegs : (runWorker total evs).outputSegments = (List.range total).map seg := by
    rw [hrw]
    show (List.insertionSort (· ≤ ·) (st.results.map (fun e : Nat × Path => e.1))).filterMap
        (fun i => lookupResult i st.results) = (List.range total).map seg
    rw [hsorted]
    exact filterMap_eq_map_of_mem _ _ _ hlookup
  refine ⟨by rw [hrw], hsegs, ?_⟩
  rw [hsegs]
  have hvalidall : ∀ p ∈ (List.range total).map seg, isValidFile fs p = true := by
    intro p hp
    rcases List.mem_map.mp hp with ⟨i, hi, rfl⟩
    exact hfs i (List.mem_range.mp hi)
  have hfiltereq : ((List.range total).map seg).filter (isValidFile fs)
      = (List.range total).map seg := List.filter_eq_self.mpr hvalidall
  obtain ⟨n, rfl⟩ : ∃ n, total = n + 1 := ⟨total - 1, by omega⟩
  rw [List.range_succ_eq_map, List.map_cons] at hfiltereq ⊢
  refine ⟨(((List.range n).map Nat.succ).map seg).filter
      (fun p => paramsOf fs p ≠ paramsOf fs (seg 0)), ?_⟩
  rw [combineWavFiles_ok fs _ (seg 0) (((List.range n).map Nat.succ).map seg) hfiltereq]
  congr 1
  simp only [List.map_cons, List.map_map]
  rfl

/-- Witness for C2: a two-chunk run whose completions arrive in reverse
order still hands the stitcher the segments in chunk-index order. -/
theorem runWorker_ordered_stitch_witness :
    (runWorker 2 evsW).outputWritten = true ∧
    (runWorker 2 evsW).outputSegments = (List.range 2).map segW := by
  have h := runWorker_ordered_stitch 2 segW evsW fsW (by decide) (by decide) (by decide)
  exact ⟨h.1, h.2.1⟩

/-! ## Claim C8: filtering and format handling in the stitcher -/

/-- Claim C8: the stitcher filters its inputs to artifacts that exist with
non-zero size; if none remain it fails with a combine error; otherwise it
takes the parameters of the first valid artifact and appends the frames of
every valid artifact in order.  The warning log names exactly the later
valid artifacts whose full getparams tuple (format fields and frame count)
differs from that of the first; in particular every later valid artifact
whose audio FORMAT differs is warned about, and its frames are appended to
the output regardless. -/
theorem combineWavFiles_behavior (fs : FS) (inputs : List Path) :
    (inputs.filter (isValidFile fs) = [] →
      ∃ e, combineWavFiles fs inputs = CombineResult.failure e) ∧
    (∀ v0 rest, inputs.filter (isValidFile fs) = v0 :: rest →
      combineWavFiles fs inputs =
        CombineResult.ok (paramsOf fs v0)
          (((v0 :: rest).map (framesOf fs)).flatten)
          (rest.filter (fun p => paramsOf fs p ≠ paramsOf fs v0)) ∧
      ∀ p ∈ rest, formatOfParams (paramsOf fs p) ≠ formatOfParams (paramsOf fs v0) →
        p ∈ rest.filter (fun p => paramsOf fs p ≠ paramsOf fs v0)) := by
  constructor
  · intro hfilter
    cases hinp : inputs with
    | nil => exact ⟨CombineErr.noInput, rfl⟩
    | cons a t =>
      refine ⟨CombineErr.noValid, ?_⟩
      rw [hinp] at hfilter
      unfold combineWavFiles
      rw [hfilter]
      rfl
  · intro v0 rest hfilter
    refine ⟨combineWavFiles_ok fs inputs v0 rest hfilter, ?_⟩
    intro p hp hfmt
    refine List.mem_filter.mpr ⟨hp, ?_⟩
    have hne : paramsOf fs p ≠ paramsOf fs v0 := by
      intro he
      exact hfmt (by rw [he])
    simpa using hne

/-- Witness for C8: two valid artifacts of differing formats are combined
with the parameters of the first, both frame blocks appended, and one
warning naming the second file. -/
theorem combineWavFiles_behavior_witness :
    combineWavFiles fsW [['a'], ['b']] = CombineResult.ok wavP1 [10, 11, 20] [['b']] ∧
    ['b'] ∈ ([['b']] : List Path).filter (fun p => paramsOf fsW p ≠ paramsOf fsW ['a']) := by
  have h := (combineWavFiles_behavior fsW [['a'], ['b']]).2 ['a'] [['b']] (by decide)
  constructor
  · rw [h.1]
    decide
  · exact h.2 ['b'] (by decide) (by decide)

/-! ## Claim C9: the concurrency bound -/

/-- Claim C9: in every state reachable by the bounded worker pool of the
dispatcher, the number of simultaneously in-flight fetches never exceeds
the configured bound, and that bound defaults to 12 (line 62). -/
theorem pool_inflight_bounded (p0 : Nat) (s : Nat × Nat)
    (h : PoolReach maxWorkers p0 s) : s.2 ≤ maxWorkers ∧ maxWorkers = 12 := by
  refine ⟨?_, rfl⟩
  induction h with
  | init => exact Nat.zero_le _
  | step hr hstep ih =>
    cases hstep with
    | submit pending inFlight hlt hp =>
      simp only [] at ih ⊢
      omega
    | finish pending inFlight hp =>
      simp only [] at ih ⊢
      omega

/-- Witness for C9: after two submissions from a three-chunk queue, two
fetches are in flight, within the bound. -/
theorem pool_inflight_bounded_witness :
    (2 : Nat) ≤ maxWorkers ∧ maxWorkers = 12 := by
  have h2 : PoolReach maxWorkers 3 (1, 2) :=
    PoolReach.step
      (PoolReach.step PoolReach.init (PoolStep.submit 3 0 (by decide) (by decide)))
      (PoolStep.submit 2 1 (by decide) (by decide))
  exact pool_inflight_bounded 3 (1, 2) h2

/-! ## Claim C10: request validation on the server -/

/-- Claim C10: every /synthesize request whose body is not JSON, or whose
JSON payload lacks a text field or carries an empty text value, receives a
400 response with a JSON error body, and the piper subprocess is not
invoked. -/
theorem synthesize_bad_request_400 (piper : Str → PiperResult) (req : SynthRequest)
    (h : req.isJson = false ∨ req.textField = none ∨ req.textField = some []) :
    ∃ msg, synthesize piper req = (ApiResponse.jsonError 400 msg, false) := by
  rcases h with h | h | h
  · exact ⟨"Request must be JSON".toList, by simp [synthesize, h]⟩
  · cases hj : req.isJson
    · exact ⟨"Request must be JSON".toList, by simp [synthesize, hj]⟩
    · exact ⟨"Missing text in JSON payload".toList, by simp [synthesize, hj, h]⟩
  · cases hj : req.isJson
    · exact ⟨"Request must be JSON".toList, by simp [synthesize, hj]⟩
    · exact ⟨"Missing text in JSON payload".toList, by simp [synthesize, hj, h]⟩

/-- Witness for C10: a JSON request with an empty text value is rejected
with a 400 error and no subprocess call. -/
theorem synthesize_bad_request_400_witness :
    ∃ msg, synthesize (fun _ => PiperResult.notFound)
      { isJson := true, textField := some [] } = (ApiResponse.jsonError 400 msg, false) :=
  synthesize_bad_request_400 (fun _ => PiperResult.notFound)
    { isJson := true, textField := some [] } (Or.inr (Or.inr rfl))

end PiperTTS
